import Mathlib

/-!
Shallow embedding of the Go adaptive-card builder package
(`adaptivecard`): typed element tree (TextBlock, Container, FactSet,
Table / TableRow / TableCell), the recursive `toRaw` flattening
protocol, the card root with its append helpers and mention helper,
and the custom `MarshalJSON` routine.

Go structs become Lean structures (field `Type` is spelled `Type'`
because `Type` is reserved in Lean); the `Element` interface becomes a
closed sum over the variants that implement it; Go slices become
lists; the `*MSTeamsInfo` pointer becomes an `Option`; pointer-receiver
mutators become functions returning the updated value (explicit state
passing).

A Go `toRaw` result has static type `any` and is handed to
`encoding/json`; we model that JSON-ready value space as `Raw`.  Where
the Go code returns a struct directly (TextBlock, FactSet) or an
anonymous tagged struct (Container, Table, TableRow, TableCell, the
card root), the embedding produces the JSON object the struct's field
tags dictate: fields in declaration order, an `omitempty` field
dropped exactly when its value is the Go zero value (empty string,
`false`, empty slice, nil pointer).
-/

namespace Cards

/-- `TextBlock` struct: tags `type`, `text`, `weight,omitempty`,
`size,omitempty`, `wrap,omitempty`, `separator,omitempty`. -/
structure TextBlock where
  Type' : String
  Text : String
  Weight : String
  Size : String
  Wrap : Bool
  Separator : Bool
deriving DecidableEq

/-- `Fact` struct: tags `title`, `value`. -/
structure Fact where
  Title : String
  Value : String
deriving DecidableEq

/-- `FactSet` struct: tags `type`, `facts`. -/
structure FactSet where
  Type' : String
  Facts : List Fact
deriving DecidableEq

/-- `TableCol` struct: tag `width`. -/
structure TableCol where
  Width : String
deriving DecidableEq

mutual

/-- The `Element` interface, closed over the four variants that
implement `isElement` in the package. -/
inductive Element where
| textBlock : TextBlock → Element
| container : Container → Element
| factSet : FactSet → Element
| table : Table → Element

/-- `Container` struct: fields `Type`, `Separator`, `Items []Element`. -/
inductive Container where
| mk : String → Bool → List Element → Container

/-- `Table` struct: fields `Type`, `Columns`, `Rows`,
`FirstRowAsHeaders`. -/
inductive Table where
| mk : String → List TableCol → List TableRow → Bool → Table

/-- `TableRow` struct: fields `Type`, `Cells []TableCell`. -/
inductive TableRow where
| mk : String → List TableCell → TableRow

/-- `TableCell` struct: fields `Type`, `Items []Element`. -/
inductive TableCell where
| mk : String → List Element → TableCell

end

def Container.Type' : Container → String
| .mk t _ _ => t

def Container.Separator : Container → Bool
| .mk _ s _ => s

def Container.Items : Container → List Element
| .mk _ _ i => i

def Table.Type' : Table → String
| .mk t _ _ _ => t

def Table.Columns : Table → List TableCol
| .mk _ c _ _ => c

def Table.Rows : Table → List TableRow
| .mk _ _ r _ => r

def Table.FirstRowAsHeaders : Table → Bool
| .mk _ _ _ h => h

def TableRow.Type' : TableRow → String
| .mk t _ => t

def TableRow.Cells : TableRow → List TableCell
| .mk _ c => c

def TableCell.Type' : TableCell → String
| .mk t _ => t

def TableCell.Items : TableCell → List Element
| .mk _ i => i

/-- The JSON-ready value space: what a Go `any` holds on its way to
`encoding/json`.  `elem` is an `any` still holding an unflattened
`Element`; the flattening protocol's job is to eliminate it. -/
inductive Raw where
| str : String → Raw
| bool : Bool → Raw
| arr : List Raw → Raw
| obj : List (String × Raw) → Raw
| elem : Element → Raw

/-- `TextBlock.toRaw` returns the struct itself; encoding it applies
the field tags, with the four `omitempty` fields dropped at their zero
values. -/
def TextBlock.toRaw (t : TextBlock) : Raw :=
  Raw.obj ([("type", Raw.str t.Type'), ("text", Raw.str t.Text)]
    ++ (if t.Weight = "" then [] else [("weight", Raw.str t.Weight)])
    ++ (if t.Size = "" then [] else [("size", Raw.str t.Size)])
    ++ (if t.Wrap then [("wrap", Raw.bool t.Wrap)] else [])
    ++ (if t.Separator then [("separator", Raw.bool t.Separator)] else []))

/-- Encoding of one `Fact` (tags `title`, `value`, no omission). -/
def Fact.toRaw (f : Fact) : Raw :=
  Raw.obj [("title", Raw.str f.Title), ("value", Raw.str f.Value)]

/-- `FactSet.toRaw` returns the struct itself; tags `type`, `facts`. -/
def FactSet.toRaw (fs : FactSet) : Raw :=
  Raw.obj [("type", Raw.str fs.Type'), ("facts", Raw.arr (fs.Facts.map Fact.toRaw))]

/-- Encoding of one `TableCol` (tag `width`). -/
def TableCol.toRaw (c : TableCol) : Raw :=
  Raw.obj [("width", Raw.str c.Width)]

mutual

/-- Dispatch of the `Element` interface's `toRaw`. -/
def Element.toRaw : Element → Raw
| .textBlock t => t.toRaw
| .container c => Container.toRaw c
| .factSet fs => fs.toRaw
| .table t => Table.toRaw t

/-- `Container.toRaw`: anonymous struct `{Type: "Container", Items:
[el.toRaw() for el in c.Items]}` with tags `type`, `items`. -/
def Container.toRaw : Container → Raw
| .mk _ _ items =>
    Raw.obj [("type", Raw.str "Container"),
             ("items", Raw.arr (elemsToRaw items))]

/-- `Table.toRaw`: anonymous struct with tags `type`, `columns`,
`rows`; rows converted recursively, columns copied through. -/
def Table.toRaw : Table → Raw
| .mk ty cols rows _ =>
    Raw.obj [("type", Raw.str ty),
             ("columns", Raw.arr (cols.map TableCol.toRaw)),
             ("rows", Raw.arr (rowsToRaw rows))]

/-- `TableRow.toRaw`: anonymous struct with tags `type`, `cells`. -/
def TableRow.toRaw : TableRow → Raw
| .mk ty cells =>
    Raw.obj [("type", Raw.str ty),
             ("cells", Raw.arr (cellsToRaw cells))]

/-- `TableCell.toRaw`: anonymous struct with tags `type`, `items`. -/
def TableCell.toRaw : TableCell → Raw
| .mk ty items =>
    Raw.obj [("type", Raw.str ty),
             ("items", Raw.arr (elemsToRaw items))]

/-- The `make`/`range` loop flattening a `[]Element`. -/
def elemsToRaw : List Element → List Raw
| [] => []
| e :: es => Element.toRaw e :: elemsToRaw es

/-- The `make`/`range` loop flattening a `[]TableRow`. -/
def rowsToRaw : List TableRow → List Raw
| [] => []
| r :: rs => TableRow.toRaw r :: rowsToRaw rs

/-- The `make`/`range` loop flattening a `[]TableCell`. -/
def cellsToRaw : List TableCell → List Raw
| [] => []
| c :: cs => TableCell.toRaw c :: cellsToRaw cs

end

/-- `NewTextBlock`: type tag and text set, `Wrap: true`, remaining
fields at their Go zero values. -/
def NewTextBlock (text : String) : TextBlock :=
  { Type' := "TextBlock", Text := text, Weight := "", Size := "",
    Wrap := true, Separator := false }

/-- `NewContainer(items ...Element)`. -/
def NewContainer (items : List Element) : Container :=
  .mk "Container" false items

/-- `NewFactSet(facts ...Fact)`. -/
def NewFactSet (facts : List Fact) : FactSet :=
  { Type' := "FactSet", Facts := facts }

/-- `NewTable()`: type tag, `FirstRowAsHeaders: true`, empty columns
and rows. -/
def NewTable : Table :=
  .mk "Table" [] [] true

/-- `NewTableCell(items ...Element)`. -/
def NewTableCell (items : List Element) : TableCell :=
  .mk "TableCell" items

/-- `(*TextBlock).WithWeight`, pointer-receiver mutation as explicit
state passing. -/
def TextBlock.WithWeight (t : TextBlock) (weight : String) : TextBlock :=
  { t with Weight := weight }

/-- `(*TextBlock).WithSize`. -/
def TextBlock.WithSize (t : TextBlock) (size : String) : TextBlock :=
  { t with Size := size }

/-- `(*TextBlock).WithSeparator`. -/
def TextBlock.WithSeparator (t : TextBlock) : TextBlock :=
  { t with Separator := true }

/-- `(*Container).WithSeparator`. -/
def Container.WithSeparator (c : Container) : Container :=
  .mk c.Type' true c.Items

/-- `Action` struct: tags `type`, `title`, `url,omitempty`. -/
structure Action where
  Type' : String
  Title : String
  Url : String
deriving DecidableEq

/-- `Mention` struct: tags `id`, `name`. -/
structure Mention where
  ID : String
  Name : String
deriving DecidableEq

/-- `MSTeamsEntity` struct: tags `type`, `text`, `mentioned`. -/
structure MSTeamsEntity where
  Type' : String
  Text : String
  Mentioned : Mention
deriving DecidableEq

/-- `MSTeamsInfo` struct: tag `entities`. -/
structure MSTeamsInfo where
  Entities : List MSTeamsEntity
deriving DecidableEq

/-- `AdaptiveCard` root struct; `MSTeams *MSTeamsInfo` becomes an
`Option`. -/
structure AdaptiveCard where
  Type' : String
  Version : String
  Body : List Element
  Schema : String
  Actions : List Action
  MSTeams : Option MSTeamsInfo

/-- Encoding of one `Action`: `url` dropped when empty. -/
def Action.toRaw (a : Action) : Raw :=
  Raw.obj ([("type", Raw.str a.Type'), ("title", Raw.str a.Title)]
    ++ (if a.Url = "" then [] else [("url", Raw.str a.Url)]))

/-- Encoding of a `Mention`. -/
def Mention.toRaw (m : Mention) : Raw :=
  Raw.obj [("id", Raw.str m.ID), ("name", Raw.str m.Name)]

/-- Encoding of an `MSTeamsEntity`. -/
def MSTeamsEntity.toRaw (e : MSTeamsEntity) : Raw :=
  Raw.obj [("type", Raw.str e.Type'), ("text", Raw.str e.Text),
           ("mentioned", e.Mentioned.toRaw)]

/-- Encoding of `MSTeamsInfo`. -/
def MSTeamsInfo.toRaw (m : MSTeamsInfo) : Raw :=
  Raw.obj [("entities", Raw.arr (m.Entities.map MSTeamsEntity.toRaw))]

/-- The `raw` anonymous struct assembled by `AdaptiveCard.MarshalJSON`
before the call to `json.Marshal`: body elements flattened via
`toRaw`, `actions` dropped when the slice is empty (`omitempty`),
`msteams` dropped when the pointer is nil (`omitempty`).  The `body`
slice is built with `make`, so an empty body encodes as `[]`. -/
def AdaptiveCard.marshalRaw (c : AdaptiveCard) : Raw :=
  Raw.obj ([("type", Raw.str c.Type'), ("version", Raw.str c.Version),
            ("body", Raw.arr (c.Body.map Element.toRaw)),
            ("$schema", Raw.str c.Schema)]
    ++ (if c.Actions.isEmpty then []
        else [("actions", Raw.arr (c.Actions.map Action.toRaw))])
    ++ (match c.MSTeams with
        | none => []
        | some m => [("msteams", m.toRaw)]))

/-- `AdaptiveCard.MarshalJSON`: builds the raw structure and returns
`json.Marshal(raw)` directly; the external encoder is a parameter. -/
def AdaptiveCard.MarshalJSON {ε β : Type} (enc : Raw → Except ε β)
    (c : AdaptiveCard) : Except ε β :=
  enc c.marshalRaw

/-- `(*AdaptiveCard).AddBody`: append to the body slice. -/
def AdaptiveCard.AddBody (c : AdaptiveCard) (el : Element) : AdaptiveCard :=
  { c with Body := c.Body ++ [el] }

/-- `(*AdaptiveCard).AddAction`: append to the actions slice. -/
def AdaptiveCard.AddAction (c : AdaptiveCard) (action : Action) : AdaptiveCard :=
  { c with Actions := c.Actions ++ [action] }

/-- `(*Container).AddItem`: append to the items slice. -/
def Container.AddItem (c : Container) (el : Element) : Container :=
  .mk c.Type' c.Separator (c.Items ++ [el])

/-- `(*Table).AddColumn`: append a `TableCol` of the given width. -/
def Table.AddColumn (t : Table) (width : String) : Table :=
  .mk t.Type' (t.Columns ++ [{ Width := width }]) t.Rows t.FirstRowAsHeaders

/-- `(*Table).AddRow`: append a `TableRow` of type tag "TableRow"
wrapping the given cells. -/
def Table.AddRow (t : Table) (cells : List TableCell) : Table :=
  .mk t.Type' t.Columns (t.Rows ++ [TableRow.mk "TableRow" cells]) t.FirstRowAsHeaders

/-- The text-building loop of `AddMentionsMap`: start from the given
text and append " <at>name</at>" for each display name in order. -/
def mentionText (start : String) (mentions : List String) : String :=
  mentions.foldl (fun text displayName => text ++ " <at>" ++ displayName ++ "</at>") start

/-- The fixed entity appended by `AddMentionsMap`. -/
def teamEntity : MSTeamsEntity :=
  { Type' := "mention", Text := "@Team",
    Mentioned := { ID := "19:general@thread.tacv2", Name := "Team" } }

/-- `(*AdaptiveCard).AddMentionsMap`: initialize `MSTeams` when nil,
build the placeholder text, append one `TextBlock` to the body, then
append the single fixed `teamEntity` to the entities. -/
def AdaptiveCard.AddMentionsMap (c : AdaptiveCard) (start : String)
    (mentions : List String) : AdaptiveCard :=
  let ms := match c.MSTeams with
            | none => MSTeamsInfo.mk []
            | some m => m
  let text := mentionText start mentions
  let c' := c.AddBody (Element.textBlock (NewTextBlock text))
  { c' with MSTeams := some (MSTeamsInfo.mk (ms.Entities ++ [teamEntity])) }

mutual

/-- The generic flattening pass of the element contract, applied to a
JSON-ready value: replace every `any` still holding an `Element` by
that element's `toRaw` form and recurse through arrays and objects.
Running it on the output of `toRaw` is "flattening a second time". -/
def Raw.flatten : Raw → Raw
| .str s => .str s
| .bool b => .bool b
| .arr l => .arr (flattenList l)
| .obj fs => .obj (flattenFields fs)
| .elem e => Element.toRaw e

/-- `Raw.flatten` mapped over an array's entries. -/
def flattenList : List Raw → List Raw
| [] => []
| r :: rs => Raw.flatten r :: flattenList rs

/-- `Raw.flatten` mapped over an object's field values. -/
def flattenFields : List (String × Raw) → List (String × Raw)
| [] => []
| (k, v) :: fs => (k, Raw.flatten v) :: flattenFields fs

end

theorem flattenFields_append (xs ys : List (String × Raw)) :
    flattenFields (xs ++ ys) = flattenFields xs ++ flattenFields ys := by
  induction xs with
  | nil => rfl
  | cons x xs ih => cases x; simp [flattenFields, ih]

theorem textBlock_toRaw_flatten (t : TextBlock) :
    Raw.flatten (TextBlock.toRaw t) = TextBlock.toRaw t := by
  rw [TextBlock.toRaw, Raw.flatten]
  rw [flattenFields_append, flattenFields_append, flattenFields_append,
    flattenFields_append]
  split_ifs <;> simp [flattenFields, Raw.flatten]

theorem factList_toRaw_flatten (l : List Fact) :
    flattenList (l.map Fact.toRaw) = l.map Fact.toRaw := by
  induction l with
  | nil => rfl
  | cons f fs ih => simp [Fact.toRaw, flattenList, Raw.flatten, flattenFields, ih]

theorem factSet_toRaw_flatten (fs : FactSet) :
    Raw.flatten (FactSet.toRaw fs) = FactSet.toRaw fs := by
  simp [FactSet.toRaw, Raw.flatten, flattenFields, flattenList,
    factList_toRaw_flatten]

theorem colList_toRaw_flatten (l : List TableCol) :
    flattenList (l.map TableCol.toRaw) = l.map TableCol.toRaw := by
  induction l with
  | nil => rfl
  | cons c cs ih => simp [TableCol.toRaw, flattenList, Raw.flatten, flattenFields, ih]

mutual

theorem element_toRaw_flatten : ∀ e : Element,
    Raw.flatten (Element.toRaw e) = Element.toRaw e
| .textBlock t => by
    rw [Element.toRaw]; exact textBlock_toRaw_flatten t
| .container c => by
    rw [Element.toRaw]; exact container_toRaw_flatten c
| .factSet fs => by
    rw [Element.toRaw]; exact factSet_toRaw_flatten fs
| .table t => by
    rw [Element.toRaw]; exact table_toRaw_flatten t

theorem container_toRaw_flatten : ∀ c : Container,
    Raw.flatten (Container.toRaw c) = Container.toRaw c
| .mk _ _ items => by
    simp [Container.toRaw, Raw.flatten, flattenFields,
      elemList_toRaw_flatten items]

theorem table_toRaw_flatten : ∀ t : Table,
    Raw.flatten (Table.toRaw t) = Table.toRaw t
| .mk _ cols rows _ => by
    simp [Table.toRaw, Raw.flatten, flattenFields,
      colList_toRaw_flatten cols, rowList_toRaw_flatten rows]

theorem tableRow_toRaw_flatten : ∀ r : TableRow,
    Raw.flatten (TableRow.toRaw r) = TableRow.toRaw r
| .mk _ cells => by
    simp [TableRow.toRaw, Raw.flatten, flattenFields,
      cellList_toRaw_flatten cells]

theorem tableCell_toRaw_flatten : ∀ c : TableCell,
    Raw.flatten (TableCell.toRaw c) = TableCell.toRaw c
| .mk _ items => by
    simp [TableCell.toRaw, Raw.flatten, flattenFields,
      elemList_toRaw_flatten items]

theorem elemList_toRaw_flatten : ∀ l : List Element,
    flattenList (elemsToRaw l) = elemsToRaw l
| [] => rfl
| e :: es => by
    simp [elemsToRaw, flattenList, element_toRaw_flatten e,
      elemList_toRaw_flatten es]

theorem rowList_toRaw_flatten : ∀ l : List TableRow,
    flattenList (rowsToRaw l) = rowsToRaw l
| [] => rfl
| r :: rs => by
    simp [rowsToRaw, flattenList, tableRow_toRaw_flatten r,
      rowList_toRaw_flatten rs]

theorem cellList_toRaw_flatten : ∀ l : List TableCell,
    flattenList (cellsToRaw l) = cellsToRaw l
| [] => rfl
| c :: cs => by
    simp [cellsToRaw, flattenList, tableCell_toRaw_flatten c,
      cellList_toRaw_flatten cs]

end

theorem elemsToRaw_eq_map (l : List Element) :
    elemsToRaw l = l.map Element.toRaw := by
  induction l with
  | nil => rfl
  | cons e es ih => simp [elemsToRaw, ih]

theorem elemsToRaw_append (xs ys : List Element) :
    elemsToRaw (xs ++ ys) = elemsToRaw xs ++ elemsToRaw ys := by
  simp [elemsToRaw_eq_map]

theorem foldl_AddBody_eq (els : List Element) (c : AdaptiveCard) :
    els.foldl AdaptiveCard.AddBody c = { c with Body := c.Body ++ els } := by
  induction els generalizing c with
  | nil => simp
  | cons e es ih => simp [List.foldl, AdaptiveCard.AddBody, ih]

theorem foldl_AddItem_eq (items : List Element) (co : Container) :
    items.foldl Container.AddItem co
      = Container.mk co.Type' co.Separator (co.Items ++ items) := by
  induction items generalizing co with
  | nil =>
    obtain ⟨ty, sep, l⟩ := co
    simp [Container.Type', Container.Separator, Container.Items]
  | cons e es ih =>
    obtain ⟨ty, sep, l⟩ := co
    simp [List.foldl, Container.AddItem, ih,
      Container.Type', Container.Separator, Container.Items]

theorem foldl_AddColumn_eq (ws : List String) (t : Table) :
    ws.foldl Table.AddColumn t
      = Table.mk t.Type' (t.Columns ++ ws.map fun w => { Width := w })
          t.Rows t.FirstRowAsHeaders := by
  induction ws generalizing t with
  | nil =>
    obtain ⟨ty, cols, rows, hdr⟩ := t
    simp [Table.Type', Table.Columns, Table.Rows, Table.FirstRowAsHeaders]
  | cons w ws ih =>
    obtain ⟨ty, cols, rows, hdr⟩ := t
    simp [List.foldl, Table.AddColumn, ih,
      Table.Type', Table.Columns, Table.Rows, Table.FirstRowAsHeaders]

theorem foldl_AddRow_eq (rss : List (List TableCell)) (t : Table) :
    rss.foldl Table.AddRow t
      = Table.mk t.Type' t.Columns
          (t.Rows ++ rss.map (TableRow.mk "TableRow")) t.FirstRowAsHeaders := by
  induction rss generalizing t with
  | nil =>
    obtain ⟨ty, cols, rows, hdr⟩ := t
    simp [Table.Type', Table.Columns, Table.Rows, Table.FirstRowAsHeaders]
  | cons cells rss ih =>
    obtain ⟨ty, cols, rows, hdr⟩ := t
    simp [List.foldl, Table.AddRow, ih,
      Table.Type', Table.Columns, Table.Rows, Table.FirstRowAsHeaders]

/-- The spec's description of the mention text built after the prefix:
for each name in order, a space and the `<at>` placeholder wrapping
that name. -/
def specMentionSuffix : List String → String
| [] => ""
| n :: ns => " <at>" ++ n ++ "</at>" ++ specMentionSuffix ns

theorem mentionText_cons (s n : String) (ns : List String) :
    mentionText s (n :: ns) = mentionText (s ++ " <at>" ++ n ++ "</at>") ns := rfl

theorem mentionText_eq_suffix (mentions : List String) (start : String) :
    mentionText start mentions = start ++ specMentionSuffix mentions := by
  induction mentions generalizing start with
  | nil => simp [mentionText, specMentionSuffix, String.append_empty]
  | cons n ns ih =>
    rw [mentionText_cons, ih, specMentionSuffix]
    simp [String.append_assoc]

/-- C1: a Table with exactly one column of width "auto" and exactly
one row of two cells, each cell holding one TextBlock, flattens to the
three-level nested plain structure: `columns` is `[{"width":"auto"}]`,
one row value of type "TableRow" with two "TableCell" values, each of
whose `items` lists holds the flattened form of its TextBlock;
flattening recurses table → row → cell → child element. -/
theorem c1_table_three_level_flatten (t : Table) (tb1 tb2 : TextBlock)
    (hcols : t.Columns = [{ Width := "auto" }])
    (hrows : t.Rows = [TableRow.mk "TableRow"
      [NewTableCell [Element.textBlock tb1],
       NewTableCell [Element.textBlock tb2]]]) :
    Table.toRaw t = Raw.obj
      [("type", Raw.str t.Type'),
       ("columns", Raw.arr [Raw.obj [("width", Raw.str "auto")]]),
       ("rows", Raw.arr [Raw.obj
         [("type", Raw.str "TableRow"),
          ("cells", Raw.arr
            [Raw.obj [("type", Raw.str "TableCell"),
                      ("items", Raw.arr [TextBlock.toRaw tb1])],
             Raw.obj [("type", Raw.str "TableCell"),
                      ("items", Raw.arr [TextBlock.toRaw tb2])]])]])] := by
  obtain ⟨ty, cols, rows, hdr⟩ := t
  simp only [Table.Columns] at hcols
  simp only [Table.Rows] at hrows
  subst hcols; subst hrows
  simp [Table.toRaw, Table.Type', rowsToRaw, TableRow.toRaw, cellsToRaw,
    TableCell.toRaw, NewTableCell, elemsToRaw, Element.toRaw, TableCol.toRaw]

/-- Witness for C1 at a concrete table built through the package's
constructors. -/
theorem c1_witness :
    Table.toRaw ((NewTable.AddColumn "auto").AddRow
      [NewTableCell [Element.textBlock (NewTextBlock "a")],
       NewTableCell [Element.textBlock (NewTextBlock "b")]]) = Raw.obj
      [("type", Raw.str "Table"),
       ("columns", Raw.arr [Raw.obj [("width", Raw.str "auto")]]),
       ("rows", Raw.arr [Raw.obj
         [("type", Raw.str "TableRow"),
          ("cells", Raw.arr
            [Raw.obj [("type", Raw.str "TableCell"),
                      ("items", Raw.arr [TextBlock.toRaw (NewTextBlock "a")])],
             Raw.obj [("type", Raw.str "TableCell"),
                      ("items", Raw.arr [TextBlock.toRaw (NewTextBlock "b")])]])]])] :=
  c1_table_three_level_flatten
    ((NewTable.AddColumn "auto").AddRow
      [NewTableCell [Element.textBlock (NewTextBlock "a")],
       NewTableCell [Element.textBlock (NewTextBlock "b")]])
    (NewTextBlock "a") (NewTextBlock "b") rfl rfl

/-- C2: `AddBody`, `AddItem`, `AddColumn` and `AddRow` each append
their argument at the end of the corresponding sequence (any sequence
of calls yields the original sequence followed by the arguments in
call order), and the flattened/serialized output lists elements, rows
and columns in exactly that order. -/
theorem c2_append_preserves_order (c : AdaptiveCard) (els : List Element)
    (co : Container) (items : List Element) (t : Table)
    (ws : List String) (rss : List (List TableCell)) :
    els.foldl AdaptiveCard.AddBody c = { c with Body := c.Body ++ els }
    ∧ items.foldl Container.AddItem co
        = Container.mk co.Type' co.Separator (co.Items ++ items)
    ∧ ws.foldl Table.AddColumn t
        = Table.mk t.Type' (t.Columns ++ ws.map fun w => { Width := w })
            t.Rows t.FirstRowAsHeaders
    ∧ rss.foldl Table.AddRow t
        = Table.mk t.Type' t.Columns
            (t.Rows ++ rss.map (TableRow.mk "TableRow")) t.FirstRowAsHeaders
    ∧ AdaptiveCard.marshalRaw (els.foldl AdaptiveCard.AddBody c)
        = AdaptiveCard.marshalRaw { c with Body := c.Body ++ els }
    ∧ Container.toRaw (items.foldl Container.AddItem co)
        = Raw.obj [("type", Raw.str "Container"),
                   ("items", Raw.arr (elemsToRaw co.Items ++ elemsToRaw items))]
    ∧ (c.Body ++ els).map Element.toRaw
        = c.Body.map Element.toRaw ++ els.map Element.toRaw := by
  refine ⟨foldl_AddBody_eq els c, foldl_AddItem_eq items co,
    foldl_AddColumn_eq ws t, foldl_AddRow_eq rss t,
    by rw [foldl_AddBody_eq], ?_, by simp⟩
  rw [foldl_AddItem_eq]
  simp [Container.toRaw, elemsToRaw_append]

/-- C3: a card with empty body, empty action list and absent mention
metadata serializes to an object holding exactly the keys `type`,
`version`, `body` (an empty array) and `$schema` — no `actions` key
and no `msteams` key. -/
theorem c3_minimal_card_shape (c : AdaptiveCard)
    (hb : c.Body = []) (ha : c.Actions = []) (hm : c.MSTeams = none) :
    c.marshalRaw = Raw.obj
      [("type", Raw.str c.Type'), ("version", Raw.str c.Version),
       ("body", Raw.arr []), ("$schema", Raw.str c.Schema)] := by
  simp [AdaptiveCard.marshalRaw, hb, ha, hm]

/-- Witness for C3 at a concrete minimal card. -/
theorem c3_witness :
    AdaptiveCard.marshalRaw
      (AdaptiveCard.mk "AdaptiveCard" "1.6" []
        "http://adaptivecards.io/schemas/adaptive-card.json" [] none)
      = Raw.obj
        [("type", Raw.str "AdaptiveCard"), ("version", Raw.str "1.6"),
         ("body", Raw.arr []),
         ("$schema", Raw.str "http://adaptivecards.io/schemas/adaptive-card.json")] :=
  c3_minimal_card_shape
    (AdaptiveCard.mk "AdaptiveCard" "1.6" []
      "http://adaptivecards.io/schemas/adaptive-card.json" [] none)
    rfl rfl rfl

/-- C4: `AddMentionsMap` appends exactly one TextBlock whose text is
the prefix followed by, for each name in order, a space and
`<at>name</at>` (so "Hello" with ["Alice","Bob"] gives
"Hello <at>Alice</at> <at>Bob</at>"), and appends exactly one fixed
"@Team" mention entity regardless of how many names were given,
creating the metadata container if it was absent. -/
theorem c4_addMentionsMap_shape (c : AdaptiveCard) (start : String)
    (mentions : List String) :
    (c.AddMentionsMap start mentions).Body
      = c.Body ++ [Element.textBlock (NewTextBlock (mentionText start mentions))]
    ∧ mentionText start mentions = start ++ specMentionSuffix mentions
    ∧ (c.AddMentionsMap start mentions).MSTeams
      = some (MSTeamsInfo.mk
          ((match c.MSTeams with
            | none => []
            | some m => m.Entities) ++ [teamEntity]))
    ∧ (c.AddMentionsMap start mentions).Actions = c.Actions
    ∧ mentionText "Hello" ["Alice", "Bob"]
      = "Hello <at>Alice</at> <at>Bob</at>" := by
  obtain ⟨ty, ver, body, sch, acts, ms⟩ := c
  refine ⟨?_, mentionText_eq_suffix mentions start, ?_, ?_, rfl⟩ <;>
    cases ms <;>
      simp [AdaptiveCard.AddMentionsMap, AdaptiveCard.AddBody]

/-- C5: `Container.toRaw` produces exactly the two fields `type`
(always the literal "Container") and `items` (the children flattened
in order); the separator flag, even after `WithSeparator`, never
appears in the output. -/
theorem c5_container_flatten_shape (c : Container) :
    Container.toRaw c
      = Raw.obj [("type", Raw.str "Container"),
                 ("items", Raw.arr (c.Items.map Element.toRaw))]
    ∧ Container.toRaw c.WithSeparator = Container.toRaw c := by
  obtain ⟨ty, sep, items⟩ := c
  constructor
  · simp [Container.toRaw, Container.Items, elemsToRaw_eq_map]
  · simp [Container.WithSeparator, Container.toRaw,
      Container.Type', Container.Items]

/-- C6: `NewTextBlock` returns a TextBlock with `Wrap = true`, and
`WithWeight` / `WithSize` / `WithSeparator` each modify only their own
field, leaving `Type`, `Text` and `Wrap` (and every other field)
unchanged. -/
theorem c6_wrap_default_preserved (text weight size : String) (t : TextBlock) :
    (NewTextBlock text).Wrap = true
    ∧ (NewTextBlock text).Type' = "TextBlock"
    ∧ (NewTextBlock text).Text = text
    ∧ (t.WithWeight weight).Wrap = t.Wrap
    ∧ (t.WithSize size).Wrap = t.Wrap
    ∧ t.WithSeparator.Wrap = t.Wrap
    ∧ (t.WithWeight weight).Type' = t.Type'
    ∧ (t.WithWeight weight).Text = t.Text
    ∧ (t.WithWeight weight).Size = t.Size
    ∧ (t.WithWeight weight).Separator = t.Separator
    ∧ (t.WithWeight weight).Weight = weight
    ∧ (t.WithSize size).Type' = t.Type'
    ∧ (t.WithSize size).Text = t.Text
    ∧ (t.WithSize size).Weight = t.Weight
    ∧ (t.WithSize size).Separator = t.Separator
    ∧ (t.WithSize size).Size = size
    ∧ t.WithSeparator.Type' = t.Type'
    ∧ t.WithSeparator.Text = t.Text
    ∧ t.WithSeparator.Weight = t.Weight
    ∧ t.WithSeparator.Size = t.Size
    ∧ t.WithSeparator.Separator = true := by
  simp [NewTextBlock, TextBlock.WithWeight, TextBlock.WithSize,
    TextBlock.WithSeparator]

/-- C7: flattening is deterministic (in the embedding `toRaw` is a
pure function of the tree, as the Go methods take value receivers and
write through no pointer), and its output is already fully flat:
running the flattening pass a second time over the result of
`toRaw` changes nothing, so flattening twice equals flattening
once. -/
theorem c7_flatten_idempotent (e : Element) :
    Raw.flatten (Element.toRaw e) = Element.toRaw e :=
  element_toRaw_flatten e

/-- C8: flattening every body element is total (defined on every
finite tree, one output per element), and `MarshalJSON` returns
exactly what the external JSON encoder returns on the assembled raw
structure — an encoder failure is surfaced unchanged, and
`MarshalJSON` fails exactly when the encoder fails. -/
theorem c8_error_propagation {ε β : Type} (enc : Raw → Except ε β)
    (c : AdaptiveCard) :
    AdaptiveCard.MarshalJSON enc c = enc c.marshalRaw
    ∧ (∀ err : ε, AdaptiveCard.MarshalJSON enc c = Except.error err
        ↔ enc c.marshalRaw = Except.error err)
    ∧ (c.Body.map Element.toRaw).length = c.Body.length :=
  ⟨rfl, fun _ => Iff.rfl, by simp⟩

/-- C9: `NewTable` sets `FirstRowAsHeaders` to true, yet `Table.toRaw`
produces only the keys `type`, `columns` and `rows` — the
first-row-as-headers flag is always dropped from the flattened output
and never influences it. -/
theorem c9_headers_flag_dropped (t : Table) (b : Bool) :
    NewTable.FirstRowAsHeaders = true
    ∧ Table.toRaw t = Raw.obj
        [("type", Raw.str t.Type'),
         ("columns", Raw.arr (t.Columns.map TableCol.toRaw)),
         ("rows", Raw.arr (rowsToRaw t.Rows))]
    ∧ Table.toRaw (Table.mk t.Type' t.Columns t.Rows b) = Table.toRaw t := by
  obtain ⟨ty, cols, rows, hdr⟩ := t
  refine ⟨rfl, ?_, ?_⟩ <;>
    simp [Table.toRaw, Table.Type', Table.Columns, Table.Rows]

/-- `toRaw` on an element with the state of the caller's tree after
the call: the Go method takes a value receiver and writes through no
pointer, so the caller's tree is returned unchanged. -/
def Element.flattenState (e : Element) : Raw × Element :=
  (Element.toRaw e, e)

/-- `MarshalJSON` with the state of the caller's card after the call:
the Go method takes a value receiver, reads `c.Body` and builds fresh
slices, so the caller's card is returned unchanged. -/
def AdaptiveCard.serializeState {ε β : Type} (enc : Raw → Except ε β)
    (c : AdaptiveCard) : Except ε β × AdaptiveCard :=
  (AdaptiveCard.MarshalJSON enc c, c)

/-- C10: flattening and serialization are read-only — after `toRaw`
on any element or `MarshalJSON` on the card, the element tree and the
card (body, actions, mention metadata) are unchanged, and the produced
value is the usual one. -/
theorem c10_flatten_serialize_readonly {ε β : Type}
    (enc : Raw → Except ε β) (c : AdaptiveCard) (e : Element) :
    (Element.flattenState e).2 = e
    ∧ (Element.flattenState e).1 = Element.toRaw e
    ∧ (AdaptiveCard.serializeState enc c).2 = c
    ∧ ((AdaptiveCard.serializeState enc c).2).Body = c.Body
    ∧ ((AdaptiveCard.serializeState enc c).2).Actions = c.Actions
    ∧ ((AdaptiveCard.serializeState enc c).2).MSTeams = c.MSTeams
    ∧ (AdaptiveCard.serializeState enc c).1 = AdaptiveCard.MarshalJSON enc c :=
  ⟨rfl, rfl, rfl, rfl, rfl, rfl, rfl⟩

end Cards
